import Mathlib

/-!
# `scripts/vectors/c/blake3_id.c`

A shallow embedding of the one-function program `main`, which reads standard
input in blocks of at most 8192 bytes, feeds every block to a BLAKE3 hasher,
finalizes to a 32-byte digest and prints it as 64 lowercase hex characters and
a newline.

The BLAKE3 library (`blake3.h`) and the C library (`fread`, `printf`) are not
part of the program: the hasher is a parameter (`Hasher`), the input stream is
the list of results the successive `fread` calls deliver, and the outcome of
each `printf` call is supplied by the `World`. A stream is a finite list of read
results, so every run modelled here reaches the end of its input.
-/

namespace Blake3Id

/-! ## Data model -/

/-- The C type `uint8_t`. -/
abbrev Byte := Fin 256

/-- The value of `sizeof buf` for `uint8_t buf[8192]`. -/
def BUF_SIZE : Nat := 8192

/-- The length passed to `blake3_hasher_finalize` and the size of `out`. -/
def OUT_LEN : Nat := 32

/-- The hashing library used by `main`, as an abstract accumulator over a state
type `σ`. `finalize s n` is the `n` bytes that
`blake3_hasher_finalize(&s, out, n)` stores into `out`. -/
structure Hasher (σ : Type) where
  init : σ
  update : σ → List Byte → σ
  finalize : σ → Nat → List Byte
  finalize_length : ∀ (s : σ) (n : Nat), (finalize s n).length = n

/-- One result of `fread(buf, 1, sizeof buf, stdin)`: the bytes stored at the
start of `buf` (the return value `n` is their number, never more than the
buffer holds) and whether the stream's error indicator is set afterwards. -/
structure ReadResult where
  data : List Byte
  fits : data.length ≤ BUF_SIZE
  err : Bool

/-- The environment of one run: the results of the successive `fread` calls on
standard input (past the end of the list the stream is at end-of-file and
`fread` returns 0), and for each `printf` call, counted from 0, whether it
reports an output error. -/
structure World where
  stdin : List ReadResult
  printfErr : Nat → Bool

/-- A call of the hashing library made by `main`. -/
inductive Call where
  | init : Call
  | update (block : List Byte) : Call
  | finalize (outLen : Nat) : Call
  deriving DecidableEq, Repr

/-- Standard output as seen from the program: the characters handed to `printf`
so far, in call order, and the number of `printf` calls made. -/
structure Stdout where
  text : List Char
  calls : Nat

/-- What is observed of one run of `main`: the library calls in order, the
content of `out` after finalize, the characters handed to standard output, and
the exit status. -/
structure Run where
  calls : List Call
  out : List Byte
  stdout : List Char
  status : Int

/-! ## Library operations, with the call log threaded through -/

/-- The call `blake3_hasher_init(&hasher)`. -/
def hasher_init {σ : Type} (H : Hasher σ) (log : List Call) : σ × List Call :=
  (H.init, log ++ [Call.init])

/-- The call `blake3_hasher_update(&hasher, buf, n)`, with `block` the first `n`
bytes of `buf`. -/
def hasher_update {σ : Type} (H : Hasher σ) (hasher : σ) (block : List Byte)
    (log : List Call) : σ × List Call :=
  (H.update hasher block, log ++ [Call.update block])

/-- The call `blake3_hasher_finalize(&hasher, out, n)`: the bytes stored in `out`. -/
def hasher_finalize {σ : Type} (H : Hasher σ) (hasher : σ) (n : Nat)
    (log : List Call) : List Byte × List Call :=
  (H.finalize hasher n, log ++ [Call.finalize n])

/-- The call `fread(buf, 1, sizeof buf, stdin)`: the bytes read and the rest of
the stream. At end-of-file nothing is read. -/
def fread (stdin : List ReadResult) : List Byte × List ReadResult :=
  match stdin with
  | [] => ([], [])
  | r :: rest => (r.data, rest)

/-- The conversion `%02x` of `printf` applied to an unsigned value: lowercase
hexadecimal, no prefix, padded on the left with `0` to a width of at least 2. -/
def printf_02x (v : Nat) : List Char :=
  let digits := Nat.toDigits 16 v
  List.replicate (2 - digits.length) '0' ++ digits

/-- One `printf` call writing `s`. The return value is negative when the call
reports an output error, else the number of characters. -/
def printf (w : World) (so : Stdout) (s : List Char) : Int × Stdout :=
  (if w.printfErr so.calls then -1 else (s.length : Int),
   { text := so.text ++ s, calls := so.calls + 1 })

/-! ## The program -/

/-- The loop `while ((n = fread(buf, 1, sizeof buf, stdin)) > 0)
blake3_hasher_update(&hasher, buf, n);`. The two patterns are the two cases of
`fread`; the loop ends at the first read of zero bytes. -/
def readLoop {σ : Type} (H : Hasher σ) :
    σ → List ReadResult → List Call → σ × List Call
  | hasher, [], log => (hasher, log)
  | hasher, r :: rest, log =>
    if r.data.length > 0 then
      let (hasher', log') := hasher_update H hasher r.data log
      readLoop H hasher' rest log'
    else
      (hasher, log)

/-- The loop `for (int i=0; i<32; i++) printf("%02x", out[i]);`. The value of
each `printf` call is discarded. -/
def printLoop (w : World) (out : List Byte) (so : Stdout) : Stdout :=
  (List.range 32).foldl
    (fun so i => (printf w so (printf_02x (out.getD i 0).val)).2) so

/-- The function `main`. -/
def main {σ : Type} (H : Hasher σ) (w : World) : Run :=
  let (hasher, log) := hasher_init H []
  let (hasher, log) := readLoop H hasher w.stdin log
  let (out, log) := hasher_finalize H hasher OUT_LEN log
  let so := printLoop w out { text := [], calls := 0 }
  let so := (printf w so ['\n']).2
  { calls := log, out := out, stdout := so.text, status := 0 }

/-! ## Notions used to state the properties -/

/-- The sixteen lowercase hexadecimal digits, in order of value. -/
def lowerHexAlphabet : List Char := "0123456789abcdef".toList

/-- The lowercase hexadecimal digit of value `d`, for `d < 16`. -/
def hexDigit (d : Nat) : Char := lowerHexAlphabet.getD d '?'

/-- The text of a digest: two lowercase hex digits per byte, the digit of the
high nibble first, bytes in order. -/
def hexEncode (out : List Byte) : List Char :=
  out.flatMap (fun b => [hexDigit (b.val / 16), hexDigit (b.val % 16)])

/-- The reads that come before the first read of zero bytes. -/
def readsBeforeEnd (stdin : List ReadResult) : List ReadResult :=
  stdin.takeWhile (fun r => decide (r.data ≠ []))

/-- The blocks that the successive reads return before the first read of zero
bytes. -/
def blocksBeforeEnd (stdin : List ReadResult) : List (List Byte) :=
  (readsBeforeEnd stdin).map ReadResult.data

/-- The blocks passed to `blake3_hasher_update`, in call order. -/
def updateBlocks (calls : List Call) : List (List Byte) :=
  calls.filterMap (fun c => match c with
    | Call.update b => some b
    | _ => none)

/-- Whether a library call is a finalize call, of any output length. -/
def isFinalize : Call → Bool
  | Call.finalize _ => true
  | _ => false

/-- Whether the read that ends the loop reports an error: the first read of zero
bytes has the error indicator set (running off the list is end-of-file). -/
def readFailure : List ReadResult → Bool
  | [] => false
  | r :: rest => if r.data.length > 0 then readFailure rest else r.err

/-! ## Concrete hashers and worlds used as test inputs -/

/-- A hasher that keeps the bytes fed so far and outputs their first `n` bytes,
padded with zero bytes. -/
def echoHasher : Hasher (List Byte) where
  init := []
  update := fun s b => s ++ b
  finalize := fun s n => (s ++ List.replicate n 0).take n
  finalize_length := by intro s n; simp

/-- A hasher that only remembers whether `update` was ever called. -/
def touchedHasher : Hasher Bool where
  init := false
  update := fun _ _ => true
  finalize := fun s n => List.replicate n (if s then 1 else 0)
  finalize_length := by intro s n; simp

/-- A read of the three bytes 1, 2, 3. -/
def read123 : ReadResult := { data := [1, 2, 3], fits := by decide, err := false }

/-- A read of the two bytes 255, 16. -/
def readFF10 : ReadResult := { data := [255, 16], fits := by decide, err := false }

/-- A read of the single byte 1. -/
def read1 : ReadResult := { data := [1], fits := by decide, err := false }

/-- A read of the four bytes 2, 3, 255, 16. -/
def read23FF10 : ReadResult := { data := [2, 3, 255, 16], fits := by decide, err := false }

/-- A read of zero bytes at end-of-file. -/
def readEof : ReadResult := { data := [], fits := by decide, err := false }

/-- A read of zero bytes with the error indicator set. -/
def readError : ReadResult := { data := [], fits := by decide, err := true }

/-- No `printf` call reports an error. -/
def printfOk : Nat → Bool := fun _ => false

/-- Every `printf` call reports an error. -/
def printfBroken : Nat → Bool := fun _ => true

/-! ## Lemmas about the parts of `main` -/

set_option maxRecDepth 100000 in
theorem printf_02x_byte : ∀ b : Byte,
    printf_02x b.val = [hexDigit (b.val / 16), hexDigit (b.val % 16)] := by
  decide

theorem printf_text (w : World) (so : Stdout) (s : List Char) :
    (printf w so s).2.text = so.text ++ s := rfl

theorem foldl_printf_text (w : World) (f : Nat → List Char) (l : List Nat) (so : Stdout) :
    (l.foldl (fun so i => (printf w so (f i)).2) so).text = so.text ++ l.flatMap f := by
  induction l generalizing so with
  | nil => simp
  | cons i l ih => simp [List.foldl_cons, ih, printf_text, List.append_assoc]

theorem range_map_getD (l : List Byte) :
    (List.range l.length).map (fun i => l.getD i 0) = l := by
  apply List.ext_getElem
  · simp
  · intro i h1 h2
    simp [List.getD_eq_getElem?_getD, List.getElem?_eq_getElem h2]

theorem printLoop_text (w : World) (out : List Byte) (so : Stdout) (h : out.length = 32) :
    (printLoop w out so).text = so.text ++ hexEncode out := by
  unfold printLoop
  rw [foldl_printf_text]
  congr 1
  have := range_map_getD out
  rw [h] at this
  conv_rhs => rw [← this]
  simp [hexEncode, List.flatMap, printf_02x_byte, Function.comp_def]

theorem readLoop_eq {σ : Type} (H : Hasher σ) (stdin : List ReadResult) (hasher : σ)
    (log : List Call) :
    readLoop H hasher stdin log =
      ((blocksBeforeEnd stdin).foldl H.update hasher,
        log ++ (blocksBeforeEnd stdin).map Call.update) := by
  induction stdin generalizing hasher log with
  | nil => simp [readLoop, blocksBeforeEnd, readsBeforeEnd]
  | cons r rest ih =>
    by_cases hr : r.data = []
    · simp [readLoop, blocksBeforeEnd, readsBeforeEnd, hr]
    · have hpos : r.data.length > 0 := List.length_pos.mpr hr
      simp only [readLoop, hpos, if_true, hasher_update, ih]
      simp [blocksBeforeEnd, readsBeforeEnd, hr, List.takeWhile_cons]

theorem readLoop_fread {σ : Type} (H : Hasher σ) (stdin : List ReadResult) (hasher : σ)
    (log : List Call) :
    readLoop H hasher stdin log =
      if (fread stdin).1.length > 0 then
        readLoop H (H.update hasher (fread stdin).1) (fread stdin).2
          (log ++ [Call.update (fread stdin).1])
      else (hasher, log) := by
  cases stdin with
  | nil => simp [readLoop, fread]
  | cons r rest => simp [readLoop, fread, hasher_update]

theorem main_out {σ : Type} (H : Hasher σ) (w : World) :
    (main H w).out = H.finalize ((blocksBeforeEnd w.stdin).foldl H.update H.init) 32 := by
  simp [main, hasher_init, readLoop_eq, hasher_finalize, OUT_LEN]

theorem main_out_length {σ : Type} (H : Hasher σ) (w : World) :
    (main H w).out.length = 32 := by
  rw [main_out, H.finalize_length]

theorem main_calls {σ : Type} (H : Hasher σ) (w : World) :
    (main H w).calls =
      Call.init :: ((blocksBeforeEnd w.stdin).map Call.update ++ [Call.finalize 32]) := by
  simp [main, hasher_init, readLoop_eq, hasher_finalize, OUT_LEN]

theorem main_stdout {σ : Type} (H : Hasher σ) (w : World) :
    (main H w).stdout = hexEncode (main H w).out ++ ['\n'] := by
  have hlen := main_out_length H w
  simp only [main, hasher_init, readLoop_eq, hasher_finalize] at hlen ⊢
  rw [printf_text, printLoop_text _ _ _ hlen]
  simp

theorem main_status {σ : Type} (H : Hasher σ) (w : World) : (main H w).status = 0 := rfl

theorem run_eq (a b : Run) (hcalls : a.calls = b.calls) (hout : a.out = b.out)
    (hstdout : a.stdout = b.stdout) (hstatus : a.status = b.status) : a = b := by
  cases a
  cases b
  simp_all

theorem main_eq_of_blocks {σ : Type} (H : Hasher σ) (w v : World)
    (h : blocksBeforeEnd w.stdin = blocksBeforeEnd v.stdin) : main H w = main H v := by
  have hout : (main H w).out = (main H v).out := by rw [main_out, main_out, h]
  apply run_eq
  · rw [main_calls, main_calls, h]
  · exact hout
  · rw [main_stdout, main_stdout, hout]
  · rfl

theorem hexDigit_mem (d : Nat) (h : d < 16) : hexDigit d ∈ lowerHexAlphabet := by
  interval_cases d <;> decide

theorem hexDigit_injective (a b : Nat) (ha : a < 16) (hb : b < 16)
    (h : hexDigit a = hexDigit b) : a = b := by
  interval_cases a <;> interval_cases b <;> first | rfl | (exact absurd h (by decide))

theorem newline_not_hex : '\n' ∉ lowerHexAlphabet := by decide

theorem hexEncode_cons (b : Byte) (out : List Byte) :
    hexEncode (b :: out) = hexDigit (b.val / 16) :: hexDigit (b.val % 16) :: hexEncode out := by
  simp [hexEncode]

theorem hexEncode_length (out : List Byte) : (hexEncode out).length = 2 * out.length := by
  induction out with
  | nil => rfl
  | cons b out ih => rw [hexEncode_cons]; simp [ih]; omega

theorem mem_hexEncode (out : List Byte) (c : Char) (h : c ∈ hexEncode out) :
    c ∈ lowerHexAlphabet := by
  induction out with
  | nil => simp [hexEncode] at h
  | cons b out ih =>
    rw [hexEncode_cons] at h
    rcases List.mem_cons.mp h with h | h
    · rw [h]; exact hexDigit_mem _ (by omega)
    rcases List.mem_cons.mp h with h | h
    · rw [h]; exact hexDigit_mem _ (Nat.mod_lt _ (by decide))
    · exact ih h

theorem hexEncode_getElem (out : List Byte) (i : Nat) (b : Byte) (h : out[i]? = some b) :
    (hexEncode out)[2 * i]? = some (hexDigit (b.val / 16)) ∧
      (hexEncode out)[2 * i + 1]? = some (hexDigit (b.val % 16)) := by
  induction out generalizing i with
  | nil => simp at h
  | cons a out ih =>
    rw [hexEncode_cons]
    cases i with
    | zero =>
      simp at h
      subst h
      simp
    | succ i =>
      simp at h
      have := ih i h
      have e1 : 2 * (i + 1) = (2 * i + 1) + 1 := by omega
      rw [e1]
      simpa using this

theorem hexEncode_injective (d1 d2 : List Byte) (h : hexEncode d1 = hexEncode d2) :
    d1 = d2 := by
  induction d1 generalizing d2 with
  | nil =>
    cases d2 with
    | nil => rfl
    | cons b d2 => simp [hexEncode] at h
  | cons a d1 ih =>
    cases d2 with
    | nil => simp [hexEncode] at h
    | cons b d2 =>
      rw [hexEncode_cons, hexEncode_cons] at h
      simp only [List.cons.injEq] at h
      obtain ⟨hhi, hlo, hrest⟩ := h
      have h1 := hexDigit_injective _ _ (by omega) (by omega) hhi
      have h2 := hexDigit_injective _ _ (Nat.mod_lt _ (by decide)) (Nat.mod_lt _ (by decide)) hlo
      have hab : a = b := by
        apply Fin.ext
        omega
      rw [hab, ih d2 hrest]

theorem blocksBeforeEnd_of_nonempty (stdin : List ReadResult)
    (h : ∀ r ∈ stdin, r.data ≠ []) : blocksBeforeEnd stdin = stdin.map ReadResult.data := by
  unfold blocksBeforeEnd readsBeforeEnd
  congr 1
  apply List.takeWhile_eq_self_iff.mpr
  intro r hr
  simpa using h r hr

theorem foldl_update_append {σ : Type} (H : Hasher σ)
    (law : ∀ (h : σ) (a b : List Byte), H.update (H.update h a) b = H.update h (a ++ b))
    (blocks : List (List Byte)) (h : σ) (a : List Byte) :
    blocks.foldl H.update (H.update h a) = H.update h (a ++ blocks.flatten) := by
  induction blocks generalizing a with
  | nil => simp
  | cons b blocks ih => simp [List.foldl_cons, law, ih, List.append_assoc]

theorem foldl_update_blocks {σ : Type} (H : Hasher σ)
    (law : ∀ (h : σ) (a b : List Byte), H.update (H.update h a) b = H.update h (a ++ b))
    (blocks : List (List Byte)) (hne : ∀ b ∈ blocks, b ≠ []) :
    (blocks.flatten ≠ [] → blocks.foldl H.update H.init = H.update H.init blocks.flatten) ∧
      (blocks.flatten = [] → blocks.foldl H.update H.init = H.init) := by
  cases blocks with
  | nil => simp
  | cons b blocks =>
    have hb : b ≠ [] := hne b (List.mem_cons_self _ _)
    constructor
    · intro _
      simp [List.foldl_cons, foldl_update_append H law]
    · intro h
      simp [hb] at h

theorem updateBlocks_main {σ : Type} (H : Hasher σ) (w : World) :
    updateBlocks (main H w).calls = blocksBeforeEnd w.stdin := by
  rw [main_calls]
  simp [updateBlocks, List.filterMap_cons, List.filterMap_append, List.filterMap_map,
    Function.comp_def]

/-! ## The properties of the specification -/

/-- C1, as the specification states it, fails: `touchedHasher` satisfies
`update (update h a) b = update h (a ++ b)`, both block sequences are the empty
sequence (all blocks non-empty, concatenation `[]`), yet the digest `main`
computes, `finalize init`, differs from `finalize (update init [])`. -/
theorem chunking_single_block_fails_on_empty_stream :
    (∀ (h : Bool) (a b : List Byte),
        touchedHasher.update (touchedHasher.update h a) b = touchedHasher.update h (a ++ b)) ∧
      (∀ r ∈ ([] : List ReadResult), r.data ≠ []) ∧
      (([] : List ReadResult).map ReadResult.data).flatten = ([] : List Byte) ∧
      (main touchedHasher { stdin := [], printfErr := printfOk }).out ≠
        touchedHasher.finalize (touchedHasher.update touchedHasher.init []) 32 := by
  refine ⟨fun _ _ _ => rfl, by simp, rfl, by decide⟩

/-- C1 (amended): for a hasher whose update satisfies
`update (update h a) b = update h (a ++ b)`, two sequences of non-empty read
blocks with the same concatenation `S` give the same 32-byte digest; when `S`
is non-empty, or when `update init [] = init`, that digest is
`finalize (update init S)`, the digest of `S` fed as one block, and when `S` is
empty it is `finalize init` (no update call is made). -/
theorem chunking_independence {σ : Type} (H : Hasher σ)
    (law : ∀ (h : σ) (a b : List Byte), H.update (H.update h a) b = H.update h (a ++ b))
    (s1 s2 : List ReadResult) (p1 p2 : Nat → Bool) (S : List Byte)
    (hne1 : ∀ r ∈ s1, r.data ≠ []) (hne2 : ∀ r ∈ s2, r.data ≠ [])
    (hS1 : (s1.map ReadResult.data).flatten = S)
    (hS2 : (s2.map ReadResult.data).flatten = S) :
    (main H { stdin := s1, printfErr := p1 }).out =
        (main H { stdin := s2, printfErr := p2 }).out ∧
      (main H { stdin := s1, printfErr := p1 }).out.length = 32 ∧
      (S ≠ [] ∨ H.update H.init [] = H.init →
        (main H { stdin := s1, printfErr := p1 }).out = H.finalize (H.update H.init S) 32) ∧
      (S = [] → (main H { stdin := s1, printfErr := p1 }).out = H.finalize H.init 32) := by
  have key : ∀ s : List ReadResult, (∀ r ∈ s, r.data ≠ []) →
      (s.map ReadResult.data).flatten = S → ∀ p : Nat → Bool,
      (S ≠ [] → (main H { stdin := s, printfErr := p }).out =
        H.finalize (H.update H.init S) 32) ∧
      (S = [] → (main H { stdin := s, printfErr := p }).out = H.finalize H.init 32) := by
    intro s hne hS p
    have hblocks : ∀ b ∈ s.map ReadResult.data, b ≠ [] := by
      intro b hb
      obtain ⟨r, hr, rfl⟩ := List.mem_map.mp hb
      exact hne r hr
    have hf := foldl_update_blocks H law (s.map ReadResult.data) hblocks
    rw [hS] at hf
    rw [main_out, blocksBeforeEnd_of_nonempty s hne]
    exact ⟨fun h => by rw [hf.1 h], fun h => by rw [hf.2 h]⟩
  have k1 := key s1 hne1 hS1 p1
  have k2 := key s2 hne2 hS2 p2
  refine ⟨?_, main_out_length H _, ?_, k1.2⟩
  · by_cases hS : S = []
    · rw [k1.2 hS, k2.2 hS]
    · rw [k1.1 hS, k2.1 hS]
  · intro h
    by_cases hS : S = []
    · rcases h with h | h
      · exact absurd hS h
      · rw [k1.2 hS, hS, h]
    · exact k1.1 hS

/-- Witness for `chunking_independence`: the bytes 1, 2, 3, 255, 16 read as
blocks of 3 and 2 bytes, and as blocks of 1 and 4 bytes. -/
theorem chunking_independence_witness :
    (main echoHasher { stdin := [read123, readFF10], printfErr := printfOk }).out =
        (main echoHasher { stdin := [read1, read23FF10], printfErr := printfOk }).out ∧
      (main echoHasher { stdin := [read123, readFF10], printfErr := printfOk }).out.length = 32 ∧
      (([1, 2, 3, 255, 16] : List Byte) ≠ [] ∨ echoHasher.update echoHasher.init [] =
          echoHasher.init →
        (main echoHasher { stdin := [read123, readFF10], printfErr := printfOk }).out =
          echoHasher.finalize (echoHasher.update echoHasher.init [1, 2, 3, 255, 16]) 32) ∧
      (([1, 2, 3, 255, 16] : List Byte) = [] →
        (main echoHasher { stdin := [read123, readFF10], printfErr := printfOk }).out =
          echoHasher.finalize echoHasher.init 32) :=
  chunking_independence echoHasher (fun h a b => List.append_assoc h a b)
    [read123, readFF10] [read1, read23FF10] printfOk printfOk [1, 2, 3, 255, 16]
    (by decide) (by decide) (by decide) (by decide)

/-- C2: for every hasher and every world, the text `main` writes is exactly 65
characters: the first 64 are among `0123456789abcdef`, the 65th is a newline,
and a newline occurs exactly once. -/
theorem output_is_one_line_of_64_hex_digits {σ : Type} (H : Hasher σ) (w : World) :
    (main H w).stdout.length = 65 ∧
      (∀ c ∈ (main H w).stdout.take 64, c ∈ lowerHexAlphabet) ∧
      (main H w).stdout[64]? = some '\n' ∧
      (main H w).stdout.count '\n' = 1 := by
  have hlen : (hexEncode (main H w).out).length = 64 := by
    rw [hexEncode_length, main_out_length]
  rw [main_stdout]
  refine ⟨by simp [hlen], ?_, ?_, ?_⟩
  · intro c hc
    rw [List.take_append_of_le_length (by omega), ← hlen, List.take_length] at hc
    exact mem_hexEncode _ c hc
  · rw [List.getElem?_append_right (by omega), hlen]
    rfl
  · rw [List.count_append]
    have h0 : (hexEncode (main H w).out).count '\n' = 0 :=
      List.count_eq_zero.mpr (fun hmem => newline_not_hex (mem_hexEncode _ _ hmem))
    rw [h0]
    rfl

/-- C3: for every index `i < 32`, with `b` the byte `out[i]` of the digest, the
output character at position `2 * i` is the lowercase hex digit of `b / 16` and
the one at position `2 * i + 1` is the lowercase hex digit of `b % 16`; a byte
below 16 therefore prints with a leading `0`. -/
theorem hex_encoding_positions {σ : Type} (H : Hasher σ) (w : World) (i : Nat)
    (hi : i < 32) :
    ∃ b : Byte, (main H w).out[i]? = some b ∧
      (main H w).stdout[2 * i]? = some (hexDigit (b.val / 16)) ∧
      (main H w).stdout[2 * i + 1]? = some (hexDigit (b.val % 16)) ∧
      (b.val < 16 → (main H w).stdout[2 * i]? = some '0') := by
  have hlen := main_out_length H w
  have hi2 : i < (main H w).out.length := by omega
  refine ⟨(main H w).out[i], List.getElem?_eq_getElem hi2, ?_⟩
  have henc := hexEncode_getElem (main H w).out i _ (List.getElem?_eq_getElem hi2)
  have hl : (hexEncode (main H w).out).length = 64 := by rw [hexEncode_length, hlen]
  have p1 : (main H w).stdout[2 * i]? = some (hexDigit (((main H w).out[i]).val / 16)) := by
    rw [main_stdout, List.getElem?_append_left (by omega)]
    exact henc.1
  have p2 : (main H w).stdout[2 * i + 1]? = some (hexDigit (((main H w).out[i]).val % 16)) := by
    rw [main_stdout, List.getElem?_append_left (by omega)]
    exact henc.2
  refine ⟨p1, p2, ?_⟩
  intro hsmall
  rw [p1, Nat.div_eq_of_lt hsmall]
  rfl

/-- Witness for `hex_encoding_positions`: byte 4 of the digest of the stream
1, 2, 3, 255, 16 under `echoHasher`. -/
theorem hex_encoding_positions_witness :
    4 < 32 ∧ ∃ b : Byte,
      (main echoHasher { stdin := [read123, readFF10], printfErr := printfOk }).out[4]? = some b ∧
      (main echoHasher { stdin := [read123, readFF10], printfErr := printfOk }).stdout[2 * 4]? =
        some (hexDigit (b.val / 16)) ∧
      (main echoHasher { stdin := [read123, readFF10], printfErr := printfOk }).stdout[2 * 4 + 1]? =
        some (hexDigit (b.val % 16)) ∧
      (b.val < 16 →
        (main echoHasher { stdin := [read123, readFF10], printfErr := printfOk }).stdout[2 * 4]? =
          some '0') :=
  ⟨by decide, hex_encoding_positions echoHasher
    { stdin := [read123, readFF10], printfErr := printfOk } 4 (by decide)⟩


/-- C4: when the first read returns zero bytes, `main` makes no update call (the
calls are one init and one finalize of 32 bytes), the digest is
`finalize init`, the output is its 64-character hex text and a newline, and the
exit status is 0. -/
theorem empty_input_hashes_empty {σ : Type} (H : Hasher σ) (w : World)
    (h : (fread w.stdin).1 = []) :
    (main H w).calls = [Call.init, Call.finalize 32] ∧
      updateBlocks (main H w).calls = [] ∧
      (main H w).out = H.finalize H.init 32 ∧
      (main H w).stdout = hexEncode (H.finalize H.init 32) ++ ['\n'] ∧
      (hexEncode (H.finalize H.init 32)).length = 64 ∧
      (main H w).status = 0 := by
  have hb : blocksBeforeEnd w.stdin = [] := by
    cases hs : w.stdin with
    | nil => rfl
    | cons r rest =>
      rw [hs] at h
      have hr : r.data = [] := h
      simp [blocksBeforeEnd, readsBeforeEnd, List.takeWhile_cons, hr]
  have hout : (main H w).out = H.finalize H.init 32 := by rw [main_out, hb]; rfl
  refine ⟨?_, ?_, hout, ?_, ?_, rfl⟩
  · rw [main_calls, hb]; rfl
  · rw [updateBlocks_main, hb]
  · rw [main_stdout, hout]
  · rw [hexEncode_length, H.finalize_length]

/-- Witness for `empty_input_hashes_empty`: a stream whose first read returns
zero bytes at end-of-file. -/
theorem empty_input_hashes_empty_witness :
    (fread [readEof]).1 = [] ∧
      (main echoHasher { stdin := [readEof], printfErr := printfOk }).calls =
        [Call.init, Call.finalize 32] ∧
      updateBlocks (main echoHasher { stdin := [readEof], printfErr := printfOk }).calls = [] ∧
      (main echoHasher { stdin := [readEof], printfErr := printfOk }).out =
        echoHasher.finalize echoHasher.init 32 ∧
      (main echoHasher { stdin := [readEof], printfErr := printfOk }).stdout =
        hexEncode (echoHasher.finalize echoHasher.init 32) ++ ['\n'] ∧
      (hexEncode (echoHasher.finalize echoHasher.init 32)).length = 64 ∧
      (main echoHasher { stdin := [readEof], printfErr := printfOk }).status = 0 :=
  ⟨rfl, empty_input_hashes_empty echoHasher { stdin := [readEof], printfErr := printfOk } rfl⟩

/-- C5, as the specification states it, fails: on the stream that delivers the
bytes 1, 2, 3 and then a read of zero bytes with the error indicator set, `main`
prints the digest of the truncated prefix 1, 2, 3 (the same line as for the
stream that ends normally after these bytes) and exits with status 0. -/
theorem read_error_prints_digest_and_exits_zero :
    readFailure [read123, readError] = true ∧
      (main echoHasher { stdin := [read123, readError], printfErr := printfOk }).status = 0 ∧
      (main echoHasher { stdin := [read123, readError], printfErr := printfOk }).stdout =
        "0102030000000000000000000000000000000000000000000000000000000000\n".toList ∧
      (main echoHasher { stdin := [read123, readError], printfErr := printfOk }).stdout =
        (main echoHasher { stdin := [read123, readEof], printfErr := printfOk }).stdout := by
  refine ⟨by decide, rfl, by decide, by decide⟩

/-- C5 (amended): `main` never inspects the error indicator of the stream. In
every run in which the read that ends the loop reports an error, `main` behaves
as at end-of-stream: it finalizes the accumulator fed with the blocks read so
far, prints the hex text of that digest and a newline, and exits with status
0; the run is the same as on the stream that ends normally after those
blocks. -/
theorem read_failure_treated_as_end_of_stream {σ : Type} (H : Hasher σ) (w : World)
    (hfail : readFailure w.stdin = true) :
    (main H w).status = 0 ∧
      (main H w).out = H.finalize ((blocksBeforeEnd w.stdin).foldl H.update H.init) 32 ∧
      (main H w).stdout = hexEncode (main H w).out ++ ['\n'] ∧
      main H w = main H { stdin := readsBeforeEnd w.stdin, printfErr := w.printfErr } := by
  have _ := hfail
  refine ⟨rfl, main_out H w, main_stdout H w, ?_⟩
  apply main_eq_of_blocks
  simp [blocksBeforeEnd, readsBeforeEnd, List.takeWhile_takeWhile]

/-- Witness for `read_failure_treated_as_end_of_stream`: the bytes 1, 2, 3 and
then a failing read. -/
theorem read_failure_treated_as_end_of_stream_witness :
    readFailure [read123, readError] = true ∧
      (main echoHasher { stdin := [read123, readError], printfErr := printfOk }).status = 0 :=
  ⟨by decide, (read_failure_treated_as_end_of_stream echoHasher
    { stdin := [read123, readError], printfErr := printfOk } (by decide)).1⟩

/-- C6, as the specification states it, fails: when every `printf` call reports
an error (a negative value), `main` still exits with status 0. -/
theorem write_error_exits_zero :
    (∀ k : Nat, printfBroken k = true) ∧
      (printf { stdin := [read123], printfErr := printfBroken }
        { text := [], calls := 0 } ['\n']).1 < 0 ∧
      (main echoHasher { stdin := [read123], printfErr := printfBroken }).status = 0 := by
  refine ⟨fun _ => rfl, by decide, rfl⟩

/-- C6 (amended): `main` discards the value of every `printf` call. In every
run in which one of its 33 `printf` calls reports an error, `main` goes on as
if the call had succeeded: it hands the same characters to `printf`, makes the
same library calls, and exits with status 0. -/
theorem write_failure_is_ignored {σ : Type} (H : Hasher σ) (w : World)
    (hfail : ∃ k, k ≤ 32 ∧ w.printfErr k = true) :
    (main H w).status = 0 ∧
      main H w = main H { stdin := w.stdin, printfErr := printfOk } := by
  have _ := hfail
  exact ⟨rfl, main_eq_of_blocks H w _ rfl⟩

/-- Witness for `write_failure_is_ignored`: every `printf` call fails. -/
theorem write_failure_is_ignored_witness :
    (∃ k, k ≤ 32 ∧ printfBroken k = true) ∧
      (main echoHasher { stdin := [read123], printfErr := printfBroken }).status = 0 :=
  ⟨⟨0, by decide, rfl⟩, (write_failure_is_ignored echoHasher
    { stdin := [read123], printfErr := printfBroken } ⟨0, by decide, rfl⟩).1⟩


/-- C7: for every stream, the blocks passed to update, in call order, are
exactly the blocks returned before the first read of zero bytes, so their
concatenations are equal too; a read of at least one byte (also one of fewer
than 8192 bytes) passes its block to update and the loop goes on with the rest
of the stream, and a read of zero bytes ends the loop. -/
theorem read_loop_feeds_whole_stream {σ : Type} (H : Hasher σ) (w : World) :
    updateBlocks (main H w).calls = blocksBeforeEnd w.stdin ∧
      (updateBlocks (main H w).calls).flatten = (blocksBeforeEnd w.stdin).flatten ∧
      (∀ (r : ReadResult) (rest : List ReadResult), 1 ≤ r.data.length →
        updateBlocks (main H { stdin := r :: rest, printfErr := w.printfErr }).calls =
          r.data :: updateBlocks (main H { stdin := rest, printfErr := w.printfErr }).calls) ∧
      (∀ (r : ReadResult) (rest : List ReadResult), r.data.length = 0 →
        updateBlocks (main H { stdin := r :: rest, printfErr := w.printfErr }).calls = []) := by
  refine ⟨updateBlocks_main H w, by rw [updateBlocks_main], ?_, ?_⟩
  · intro r rest hr
    have hne : r.data ≠ [] := List.length_pos.mp hr
    rw [updateBlocks_main, updateBlocks_main]
    simp [blocksBeforeEnd, readsBeforeEnd, List.takeWhile_cons, hne]
  · intro r rest hr
    have he : r.data = [] := List.length_eq_zero.mp hr
    rw [updateBlocks_main]
    simp [blocksBeforeEnd, readsBeforeEnd, List.takeWhile_cons, he]

/-- C8: on every run the library calls are one init, then zero or more updates,
then one finalize requesting 32 bytes, and nothing after it: init occurs once
and first, finalize occurs once and last. -/
theorem hasher_call_sequence {σ : Type} (H : Hasher σ) (w : World) :
    (∃ blocks : List (List Byte),
        (main H w).calls = Call.init :: (blocks.map Call.update ++ [Call.finalize 32])) ∧
      (main H w).calls.head? = some Call.init ∧
      (main H w).calls.getLast? = some (Call.finalize 32) ∧
      (main H w).calls.count Call.init = 1 ∧
      (main H w).calls.countP isFinalize = 1 := by
  rw [main_calls]
  refine ⟨⟨_, rfl⟩, rfl, ?_, ?_, ?_⟩
  · rw [← List.cons_append, List.getLast?_append]
    rfl
  · simp [List.count_cons, List.count_append, List.count_eq_zero]
  · simp [List.countP_cons, List.countP_append, List.countP_map, isFinalize,
      Function.comp_def]

/-- C9: every block `main` passes to update has between 1 and 8192 bytes. -/
theorem update_block_length {σ : Type} (H : Hasher σ) (w : World) (b : List Byte)
    (hb : Call.update b ∈ (main H w).calls) : 1 ≤ b.length ∧ b.length ≤ 8192 := by
  rw [main_calls] at hb
  have hmem : b ∈ blocksBeforeEnd w.stdin := by
    simpa using hb
  unfold blocksBeforeEnd readsBeforeEnd at hmem
  obtain ⟨r, hr, rfl⟩ := List.mem_map.mp hmem
  have hne : r.data ≠ [] := by
    have := List.mem_takeWhile_imp hr
    simpa using this
  exact ⟨List.length_pos.mpr hne, r.fits⟩

/-- Witness for `update_block_length`: the block 1, 2, 3 of a stream that then
ends. -/
theorem update_block_length_witness :
    Call.update [1, 2, 3] ∈
        (main echoHasher { stdin := [read123, readEof], printfErr := printfOk }).calls ∧
      1 ≤ ([1, 2, 3] : List Byte).length ∧ ([1, 2, 3] : List Byte).length ≤ 8192 :=
  ⟨by decide, update_block_length echoHasher
    { stdin := [read123, readEof], printfErr := printfOk } [1, 2, 3] (by decide)⟩

/-- C10: the hex text `main` prints determines the digest. For two 32-byte
digests `d1` and `d2`, if the print loop writes the same 64 characters for both
then `d1 = d2`; hence two runs whose digests are `d1` and `d2` and which print
the same line have `d1 = d2`. -/
theorem hex_output_injective (w1 w2 : World) (d1 d2 : List Byte)
    (h1 : d1.length = 32) (h2 : d2.length = 32) :
    ((printLoop w1 d1 { text := [], calls := 0 }).text =
        (printLoop w2 d2 { text := [], calls := 0 }).text → d1 = d2) ∧
      (∀ (σ1 σ2 : Type) (H1 : Hasher σ1) (H2 : Hasher σ2),
        (main H1 w1).out = d1 → (main H2 w2).out = d2 →
        (main H1 w1).stdout = (main H2 w2).stdout → d1 = d2) := by
  constructor
  · intro h
    rw [printLoop_text _ _ _ h1, printLoop_text _ _ _ h2] at h
    exact hexEncode_injective d1 d2 (by simpa using h)
  · intro σ1 σ2 H1 H2 e1 e2 h
    rw [main_stdout, main_stdout, e1, e2] at h
    exact hexEncode_injective d1 d2 (List.append_cancel_right h)

/-- Witness for `hex_output_injective`: the digest of 32 bytes of value 7, against
itself. -/
theorem hex_output_injective_witness :
    (List.replicate 32 (7 : Byte)).length = 32 ∧
      ((printLoop { stdin := [], printfErr := printfOk } (List.replicate 32 (7 : Byte))
          { text := [], calls := 0 }).text =
        (printLoop { stdin := [], printfErr := printfBroken } (List.replicate 32 (7 : Byte))
          { text := [], calls := 0 }).text →
        List.replicate 32 (7 : Byte) = List.replicate 32 (7 : Byte)) :=
  ⟨by decide, (hex_output_injective { stdin := [], printfErr := printfOk }
    { stdin := [], printfErr := printfBroken } (List.replicate 32 7) (List.replicate 32 7)
    (by decide) (by decide)).1⟩

end Blake3Id
